import Mathlib

/-!
Verification of the YottaReal bot front end (React chat interface and API
client).  JavaScript strings are embedded as `List Char` (one entry per code
point) except where UTF-16 code-unit behaviour is observable, where
`List Nat` of code units is used.  Each handler of the chat component is
embedded as a pure state transition; network effects are passed in as
explicit outcome arguments and the requests a handler issues are returned
alongside the new state.
-/

namespace Yotta

/-- The character class of the JavaScript `\s` escape (and of `String.prototype.trim`):
space, tab, LF, VT, FF, CR, NBSP, and the Unicode space separators. -/
def isJsSpace (c : Char) : Bool :=
  c.toNat = 0x20 ∨ c.toNat = 0x09 ∨ c.toNat = 0x0A ∨ c.toNat = 0x0B ∨
  c.toNat = 0x0C ∨ c.toNat = 0x0D ∨ c.toNat = 0xA0 ∨ c.toNat = 0x1680 ∨
  (0x2000 ≤ c.toNat ∧ c.toNat ≤ 0x200A) ∨ c.toNat = 0x2028 ∨ c.toNat = 0x2029 ∨
  c.toNat = 0x202F ∨ c.toNat = 0x205F ∨ c.toNat = 0x3000 ∨ c.toNat = 0xFEFF

/-- The character class of the JavaScript `\d` escape: the ASCII digits. -/
def isJsDigit (c : Char) : Bool :=
  0x30 ≤ c.toNat ∧ c.toNat ≤ 0x39

theorem isJsSpace_not_digit {c : Char} (h : isJsSpace c = true) : isJsDigit c = false := by
  simp only [isJsSpace, decide_eq_true_eq] at h
  simp only [isJsDigit, decide_eq_false_iff_not, not_and]
  omega

theorem isJsDigit_not_space {c : Char} (h : isJsDigit c = true) : isJsSpace c = false := by
  by_cases hs : isJsSpace c = true
  · rw [isJsSpace_not_digit hs] at h; cases h
  · simpa using hs

/-- `String.prototype.trim`: remove leading and trailing whitespace. -/
def jsTrim (l : List Char) : List Char :=
  ((l.dropWhile isJsSpace).reverse.dropWhile isJsSpace).reverse

/-- Decimal rendering of a `Nat`, as produced by JavaScript template
interpolation of a number. -/
def natToChars (n : Nat) : List Char :=
  Nat.toDigits 10 n

/-! ## The citation regular expression

Both `renderTextWithCitations` and `handleCopy` use the pattern
`\[(\d+)\s*→\s*Page\s*(\d+)\]`.  Every sub-pattern boundary is between
disjoint character classes (digits / whitespace / a fixed literal), so the
regex engine's greedy left-to-right match is captured exactly by a
deterministic maximal-munch parser. -/

/-- Consume one expected character. -/
def expectChar (c : Char) : List Char → Option (List Char)
  | [] => none
  | x :: xs => if x = c then some xs else none

/-- Consume an expected literal string. -/
def expectLit : List Char → List Char → Option (List Char)
  | [], l => some l
  | c :: cs, l => (expectChar c l).bind (expectLit cs)

/-- The literal `Page` inside the citation pattern. -/
def pageChars : List Char := ['P', 'a', 'g', 'e']

/-- Attempt to match the citation pattern `\[(\d+)\s*→\s*Page\s*(\d+)\]` at the
head of the input.  On success, returns the whole matched marker, the first
capture group (the citation number digits), and the remaining input. -/
def citationMatchAt (l : List Char) : Option (List Char × List Char × List Char) :=
  (expectChar '[' l).bind fun r0 =>
  let d1 := r0.takeWhile isJsDigit
  let r1 := r0.dropWhile isJsDigit
  if d1 = [] then none else
  let s1 := r1.takeWhile isJsSpace
  let r2 := r1.dropWhile isJsSpace
  (expectChar '→' r2).bind fun r3 =>
  let s2 := r3.takeWhile isJsSpace
  let r4 := r3.dropWhile isJsSpace
  (expectLit pageChars r4).bind fun r5 =>
  let s3 := r5.takeWhile isJsSpace
  let r6 := r5.dropWhile isJsSpace
  let d2 := r6.takeWhile isJsDigit
  let r7 := r6.dropWhile isJsDigit
  if d2 = [] then none else
  (expectChar ']' r7).map fun r8 =>
  ('[' :: (d1 ++ s1 ++ '→' :: (s2 ++ pageChars ++ s3 ++ d2 ++ [']'])), d1, r8)

/-- `full` is a string matching the citation pattern, with citation number
digits `d`. -/
def IsCitationMarker (full d : List Char) : Prop :=
  ∃ s1 s2 s3 d2, d ≠ [] ∧ d2 ≠ [] ∧ d.all isJsDigit = true ∧ d2.all isJsDigit = true ∧
    s1.all isJsSpace = true ∧ s2.all isJsSpace = true ∧ s3.all isJsSpace = true ∧
    full = '[' :: (d ++ s1 ++ '→' :: (s2 ++ pageChars ++ s3 ++ d2 ++ [']']))

/-- The first element (if any) of the list does not satisfy `p`. -/
def HeadNot (p : Char → Bool) : List Char → Prop
  | [] => True
  | c :: _ => p c = false

/-! ## renderTextWithCitations and handleCopy

`renderTextWithCitations` walks the text with `citationRegex.exec`, pushing
the plain stretch before each match and a clickable span for each match; the
fuel argument (instantiated with the text length, an upper bound on the
number of scanning steps) makes the recursion structural. -/

/-- A rendered fragment: a plain string, or a clickable citation span
carrying the matched marker text, the citation number digits, and the
message index whose sources its click handler targets. -/
inductive Part where
  | str : List Char → Part
  | cite : List Char → List Char → Nat → Part
deriving DecidableEq

/-- The textual content of a fragment (a citation span displays the full
matched marker). -/
def partText : Part → List Char
  | .str s => s
  | .cite full _ _ => full

def partsText (ps : List Part) : List Char := (ps.map partText).flatten

/-- The textual content contributed by plain (non-citation) fragments only. -/
def partPlain : Part → List Char
  | .str s => s
  | .cite _ _ _ => []

def partsPlainText (ps : List Part) : List Char := (ps.map partPlain).flatten

/-- One left-to-right scan of the text: at each position, if the citation
pattern matches, emit a citation span and continue after the match;
otherwise the character joins the current plain stretch. -/
def scanParts (messageIndex : Nat) : Nat → List Char → List Part
  | _, [] => []
  | 0, l => [Part.str l]
  | fuel + 1, c :: cs =>
    match citationMatchAt (c :: cs) with
    | some (full, d, rest) => Part.cite full d messageIndex :: scanParts messageIndex fuel rest
    | none =>
      match scanParts messageIndex fuel cs with
      | Part.str s :: ps => Part.str (c :: s) :: ps
      | ps => Part.str [c] :: ps

/-- `renderTextWithCitations(text, messageIndex)`: the list of rendered
parts; when no parts were produced (empty text) the original text is
returned as the sole (plain) child. -/
def renderTextWithCitations (text : List Char) (messageIndex : Nat) : List Part :=
  match scanParts messageIndex text.length text with
  | [] => [Part.str text]
  | ps => ps

/-- The DOM key `` `${messageIndex}-${citationNumber}` `` under which a
source list entry is registered in `citationsRef` and which
`scrollToCitation` looks up. -/
def citationKey (messageIndex : Nat) (citationNumber : List Char) : List Char :=
  natToChars messageIndex ++ '-' :: citationNumber

/-- `scrollToCitation(citationNumber, messageIndex)`: looks up the source
entry registered under the citation key; the returned element (if any) is
the one scrolled into view and briefly highlighted. -/
def scrollToCitation (refs : List Char → Option Nat) (citationNumber : List Char)
    (messageIndex : Nat) : Option Nat :=
  refs (citationKey messageIndex citationNumber)

/-- `text.replace(citationRegex, '')` as performed by `handleCopy`: delete
every non-overlapping match of the citation pattern, scanning left to
right. -/
def replaceFuel : Nat → List Char → List Char
  | _, [] => []
  | 0, l => l
  | fuel + 1, c :: cs =>
    match citationMatchAt (c :: cs) with
    | some (_, _, rest) => replaceFuel fuel rest
    | none => c :: replaceFuel fuel cs

def replaceCitations (l : List Char) : List Char := replaceFuel l.length l

/-! ## The chat component (src/frontend/src/components/ChatInterface.js)

State fields follow the `useState` hooks; each handler is a transition that
also reports the HTTP requests it issues.  Network results, the
confirmation dialog and clipboard success are passed in as outcome
arguments.  `Date` timestamps are not modelled. -/

inductive Role where
  | user
  | assistant
  | system
deriving DecidableEq

/-- One entry of a response's `sources` array. -/
structure SourceRef where
  citation_number : List Char
  filename : List Char
  download_url : Option (List Char)
deriving DecidableEq

structure Message where
  role : Role
  content : List Char
  sources : List SourceRef
  error : Bool
deriving DecidableEq

/-- The JSON body of a successful `/chat` response; absent fields are
`none`. -/
structure ChatResponse where
  response : Option (List Char)
  session_id : Option (List Char)
  sources : Option (List SourceRef)
deriving DecidableEq

/-- An entry of `uploadedFiles` (a successful or failed upload record). -/
structure UploadResult where
  name : List Char
  success : Bool
  pages : Option Nat
deriving DecidableEq

structure ChatState where
  messages : List Message
  input : List Char
  loading : Bool
  sessionId : List Char
  copiedIndex : Option Nat
  uploading : Bool
  uploadedFiles : List UploadResult
deriving DecidableEq

inductive ChatRequest where
  | chat (message : List Char) (session_id : List Char)
  | upload (fileName : List Char) (session_id : List Char)
  | cleanup (session_id : List Char)
deriving DecidableEq

def requestSessionId : ChatRequest → List Char
  | .chat _ sid => sid
  | .upload _ sid => sid
  | .cleanup sid => sid

/-- The client-side session identifier
`` `session-${Date.now()}-${Math.random().toString(36).substr(2, 9)}` ``.
`Date.now()` is the `now` argument; the random base-36 suffix (floating
point formatting) is abstracted as an arbitrary character list. -/
def sessionIdString (now : Nat) (suffix : List Char) : List Char :=
  "session-".toList ++ natToChars now ++ '-' :: suffix

def initChatState (now : Nat) (suffix : List Char) : ChatState :=
  { messages := [], input := [], loading := false,
    sessionId := sessionIdString now suffix,
    copiedIndex := none, uploading := false, uploadedFiles := [] }

def userMessage (t : List Char) : Message :=
  { role := .user, content := t, sources := [], error := false }

def chatErrorMessage : Message :=
  { role := .assistant, content := "Sorry, I encountered an error. Please try again.".toList,
    sources := [], error := true }

def botMessage (resp : List Char) (sources : Option (List SourceRef)) : Message :=
  { role := .assistant, content := resp, sources := sources.getD [], error := false }

def uploadSuccessMessage (n : Nat) : Message :=
  { role := .system,
    content := "✓ Uploaded ".toList ++ natToChars n ++
      " document(s). You can now ask questions about them!".toList,
    sources := [], error := false }

def uploadFailureMessage (n : Nat) : Message :=
  { role := .system,
    content := "✗ Failed to upload ".toList ++ natToChars n ++
      " document(s). Please try again.".toList,
    sources := [], error := true }

def clearSuccessMessage : Message :=
  { role := .system, content := "✓ All uploaded documents have been deleted.".toList,
    sources := [], error := false }

def clearFailureMessage : Message :=
  { role := .system, content := "✗ Failed to delete documents. Please try again.".toList,
    sources := [], error := true }

/-- The guard of the `handleSubmit` branch that would adopt the session id
returned by the backend (`if (!sessionId) { ... }`): JavaScript falsiness of
a string is emptiness. -/
def adoptsBackendSession (st : ChatState) : Bool :=
  st.sessionId.isEmpty

/-- `handleSubmit`: guard checks, append the user message, send the chat
request, then append the assistant (or error) message.  `outcome` is the
result of `sendMessage`: `.error` for a rejected promise, `.ok r` for a
parsed response body. -/
def handleSubmit (st : ChatState) (outcome : Except Unit ChatResponse) :
    ChatState × Option ChatRequest :=
  if jsTrim st.input = [] ∨ st.loading = true then (st, none)
  else
    let t := jsTrim st.input
    if t.length = 0 ∨ 5000 < t.length then (st, none)
    else
      let st1 : ChatState :=
        { st with messages := st.messages ++ [userMessage t], input := [], loading := true }
      let req := ChatRequest.chat t st.sessionId
      match outcome with
      | .error _ =>
        ({ st1 with messages := st1.messages ++ [chatErrorMessage], loading := false }, some req)
      | .ok r =>
        match r.response with
        | none =>
          ({ st1 with messages := st1.messages ++ [chatErrorMessage], loading := false }, some req)
        | some resp =>
          if resp = [] then
            ({ st1 with messages := st1.messages ++ [chatErrorMessage], loading := false }, some req)
          else
            let st2 :=
              if adoptsBackendSession st1 then
                match r.session_id with
                | some s => if s = [] then st1 else { st1 with sessionId := s }
                | none => st1
              else st1
            ({ st2 with
                messages := st2.messages ++ [botMessage resp r.sources]
                loading := false }, some req)

/-- One entry of the file-selection event: `name` is `none` for an entry
failing the `!file || !file.name` check; `result` is `some pages` for an ok
response (`pages_extracted` may be absent) and `none` for a failed fetch or
non-ok response. -/
structure UploadFile where
  name : Option (List Char)
  result : Option (Option Nat)
deriving DecidableEq

def uploadStep (sid : List Char) (f : UploadFile) : Option (UploadResult × ChatRequest) :=
  match f.name with
  | none => none
  | some nm =>
    match f.result with
    | some pages => some ({ name := nm, success := true, pages := pages }, ChatRequest.upload nm sid)
    | none => some ({ name := nm, success := false, pages := none }, ChatRequest.upload nm sid)

/-- `handleFileUpload` of the chat component: upload each named file,
extend `uploadedFiles` with the successes, and append a success and/or a
failure system message. -/
def handleFileUpload (st : ChatState) (files : List UploadFile) : ChatState × List ChatRequest :=
  if files.isEmpty then (st, [])
  else
    let items := files.filterMap (uploadStep st.sessionId)
    let results := items.map Prod.fst
    let succ := results.filter (fun r => r.success)
    let failed := results.filter (fun r => !r.success)
    let st1 := { st with uploadedFiles := st.uploadedFiles ++ succ }
    let st2 :=
      if 0 < succ.length then
        { st1 with messages := st1.messages ++ [uploadSuccessMessage succ.length] }
      else st1
    let st3 :=
      if 0 < failed.length then
        { st2 with messages := st2.messages ++ [uploadFailureMessage failed.length] }
      else st2
    ({ st3 with uploading := false }, items.map Prod.snd)

/-- `handleClearUploads`: no-op without uploads or confirmation; on an ok
cleanup response empty `uploadedFiles` and append a success message; on a
non-ok response (`.ok false`) or a network error append an error message
and leave `uploadedFiles` unchanged. -/
def handleClearUploads (st : ChatState) (confirmed : Bool) (result : Except Unit Bool) :
    ChatState × Option ChatRequest :=
  if st.uploadedFiles.isEmpty then (st, none)
  else if confirmed = false then (st, none)
  else
    let req := ChatRequest.cleanup st.sessionId
    match result with
    | .ok true =>
      ({ st with uploadedFiles := [], messages := st.messages ++ [clearSuccessMessage] }, some req)
    | .ok false =>
      ({ st with messages := st.messages ++ [clearFailureMessage] }, some req)
    | .error _ =>
      ({ st with messages := st.messages ++ [clearFailureMessage] }, some req)

/-- `handleCopy`: writes the text with citation markers deleted to the
clipboard (returned second); on clipboard success records the copied
index. -/
def handleCopy (st : ChatState) (text : List Char) (index : Nat) (clipboardOk : Bool) :
    ChatState × List Char :=
  (if clipboardOk then { st with copiedIndex := some index } else st, replaceCitations text)

/-- The user-visible operations of the component, with their outcome
arguments. -/
inductive ChatEvent where
  | setInput (s : List Char)
  | submit (outcome : Except Unit ChatResponse)
  | upload (files : List UploadFile)
  | clearUploads (confirmed : Bool) (result : Except Unit Bool)
  | copy (text : List Char) (index : Nat) (clipboardOk : Bool)

def step (st : ChatState) (ev : ChatEvent) : ChatState × List ChatRequest :=
  match ev with
  | .setInput s => ({ st with input := s }, [])
  | .submit outcome =>
    let r := handleSubmit st outcome
    (r.1, r.2.toList)
  | .upload files => handleFileUpload st files
  | .clearUploads confirmed result =>
    let r := handleClearUploads st confirmed result
    (r.1, r.2.toList)
  | .copy text index clipboardOk => ((handleCopy st text index clipboardOk).1, [])

/-- A mounted component: the cleanup effect runs once (empty dependency
array), so the closures of `cleanupSession` and `handleBeforeUnload`
capture the `uploadedFiles` and `sessionId` values of the first render and
never see later updates. -/
structure MountedChat where
  state : ChatState
  capturedUploadedFiles : List UploadResult
  capturedSessionId : List Char
deriving DecidableEq

def mountChat (now : Nat) (suffix : List Char) : MountedChat :=
  { state := initChatState now suffix,
    capturedUploadedFiles := (initChatState now suffix).uploadedFiles,
    capturedSessionId := (initChatState now suffix).sessionId }

def applyEvent (m : MountedChat) (ev : ChatEvent) : MountedChat :=
  { m with state := (step m.state ev).1 }

def applyEvents (m : MountedChat) (evs : List ChatEvent) : MountedChat :=
  evs.foldl applyEvent m

/-- The body of `cleanupSession`: POST `/cleanup-session` with the captured
session id, guarded by `uploadedFiles.length > 0 && sessionId` over the
captured values. -/
def cleanupSession (capturedFiles : List UploadResult) (capturedSid : List Char) :
    Option ChatRequest :=
  if capturedFiles ≠ [] ∧ capturedSid ≠ [] then some (ChatRequest.cleanup capturedSid) else none

/-- The effect cleanup run at unmount. -/
def unmountCleanup (m : MountedChat) : Option ChatRequest :=
  cleanupSession m.capturedUploadedFiles m.capturedSessionId

/-- The `beforeunload` listener (`if (uploadedFiles.length > 0) cleanupSession()`). -/
def beforeUnloadCleanup (m : MountedChat) : Option ChatRequest :=
  if m.capturedUploadedFiles ≠ [] then
    cleanupSession m.capturedUploadedFiles m.capturedSessionId
  else none

/-! ## The API client (src/frontend/src/services/api.js) -/

namespace ApiService

def defaultBaseURL : List Char := "http://localhost:8000/api".toList

/-- `process.env.REACT_APP_API_URL || 'http://localhost:8000/api'`. -/
def apiBaseURL (envUrl : Option (List Char)) : List Char :=
  match envUrl with
  | some u => if u = [] then defaultBaseURL else u
  | none => defaultBaseURL

/-- `process.env.REACT_APP_CHATBOT_API_KEY || ''`. -/
def apiKey (envKey : Option (List Char)) : List Char :=
  envKey.getD []

inductive HttpMethod where
  | post
  | get
deriving DecidableEq

/-- The configuration of the `axios.create` instance. -/
structure ApiConfig where
  baseURL : List Char
  headers : List (List Char × List Char)
deriving DecidableEq

def apiInstance (envUrl envKey : Option (List Char)) : ApiConfig :=
  { baseURL := apiBaseURL envUrl,
    headers := [("Content-Type".toList, "application/json".toList),
                ("X-API-Key".toList, apiKey envKey)] }

/-- The JSON body of the `/chat` POST. -/
structure ChatBody where
  message : List Char
  session_id : Option (List Char)
deriving DecidableEq

structure ApiRequest where
  method : HttpMethod
  config : ApiConfig
  path : List Char
  body : Option ChatBody
deriving DecidableEq

def chatRequest (envUrl envKey : Option (List Char)) (messageText : List Char)
    (sessionId : Option (List Char)) : ApiRequest :=
  { method := .post, config := apiInstance envUrl envKey, path := "/chat".toList,
    body := some { message := messageText, session_id := sessionId } }

def healthRequest (envUrl envKey : Option (List Char)) : ApiRequest :=
  { method := .get, config := apiInstance envUrl envKey, path := "/health".toList, body := none }

/-- An axios response envelope. -/
structure AxiosResp (α : Type) where
  data : α
deriving DecidableEq

/-- `sendMessage(messageText, sessionId)`: one POST `/chat`; on success
return `response.data`, on failure log and rethrow the original error. -/
def sendMessage {ε α : Type} (transport : ApiRequest → Except ε (AxiosResp α))
    (envUrl envKey : Option (List Char)) (messageText : List Char)
    (sessionId : Option (List Char)) : Except ε α :=
  match transport (chatRequest envUrl envKey messageText sessionId) with
  | .ok r => .ok r.data
  | .error e => .error e

/-- `checkHealth()`: one GET `/health`; same pass-through shape. -/
def checkHealth {ε α : Type} (transport : ApiRequest → Except ε (AxiosResp α))
    (envUrl envKey : Option (List Char)) : Except ε α :=
  match transport (healthRequest envUrl envKey) with
  | .ok r => .ok r.data
  | .error e => .error e

end ApiService

/-! ## The chat component variant embedded in src/frontend/src/services/api.js

This second copy of `ChatInterface` (the one the 15MB / 5-upload claims
cite) validates file sizes before uploading and mirrors the backend's
`uploads_remaining` counter. -/

namespace ServicesChat

def MAX_UPLOADS_PER_SESSION : Nat := 5

def MAX_FILE_SIZE_BYTES : Nat := 15 * 1024 * 1024

/-- An `uploadResults` entry of this variant (failures carry the backend
`detail`). -/
structure UploadResultB where
  name : List Char
  success : Bool
  pages : Option Nat
  error : Option (List Char)
deriving DecidableEq

/-- The fetch outcome for one file: `.ok` with the optional
`pages_extracted` and `uploads_remaining` response fields, `.httpError`
with the optional error `detail`, or `.netError` (a thrown exception,
which aborts the whole batch). -/
inductive FetchOutcomeB where
  | ok (pages : Option Nat) (uploads_remaining : Option Nat)
  | httpError (detail : Option (List Char))
  | netError
deriving DecidableEq

/-- A selected file together with its would-be fetch outcome. -/
structure FileB where
  name : List Char
  size : Nat
  outcome : FetchOutcomeB
deriving DecidableEq

structure StateB where
  messages : List Message
  uploading : Bool
  uploadedFiles : List UploadResultB
  uploadsRemaining : Nat
  sessionId : List Char
deriving DecidableEq

/-- `x || fallback` on an optional string. -/
def jsOr (x : Option (List Char)) (fallback : List Char) : List Char :=
  match x with
  | some s => if s = [] then fallback else s
  | none => fallback

def joinWith (sep : List Char) : List (List Char) → List Char
  | [] => []
  | [x] => x
  | x :: xs => x ++ sep ++ joinWith sep xs

/-- `` `${f.pages} page${f.pages !== 1 ? 's' : ''} read` `` (an absent
`pages_extracted` interpolates as `undefined`). -/
def pagesText : Option Nat → List Char
  | some p => natToChars p ++ (if p = 1 then " page read" else " pages read").toList
  | none => "undefined pages read".toList

def fileDetail (r : UploadResultB) : List Char :=
  r.name ++ " (".toList ++ pagesText r.pages ++ ")".toList

def oversizeMessage (name : List Char) : Message :=
  { role := .system,
    content := "✗ \"".toList ++ name ++
      "\" exceeds the 15MB limit. Please upload a smaller file.".toList,
    sources := [], error := true }

def uploadSuccessMessageB (succ : List UploadResultB) : Message :=
  { role := .system,
    content := "✓ Uploaded ".toList ++ natToChars succ.length ++
      " document(s): ".toList ++ joinWith ", ".toList (succ.map fileDetail) ++
      ". Note: Only the first 15 pages of each file are read.".toList,
    sources := [], error := false }

def uploadFailureMessageB (failed : List UploadResultB) : Message :=
  { role := .system,
    content := "✗ Failed to upload ".toList ++ natToChars failed.length ++
      " document(s). ".toList ++
      joinWith "; ".toList
        (failed.map fun f => f.name ++ ": ".toList ++ jsOr f.error "Upload failed".toList),
    sources := [], error := true }

def batchErrorMessage : Message :=
  { role := .system, content := "✗ Failed to upload documents. Please try again.".toList,
    sources := [], error := true }

/-- The accumulator of the upload loop: results so far, the last
backend-reported `uploads_remaining` (applied immediately by
`setUploadsRemaining`), the requests sent, and whether an exception aborted
the loop. -/
structure BatchAcc where
  results : List UploadResultB
  remaining : Option Nat
  reqs : List ChatRequest
  aborted : Bool
deriving DecidableEq

def stepBatch (sid : List Char) (acc : BatchAcc) (f : FileB) : BatchAcc :=
  if acc.aborted then acc
  else
    let reqs := acc.reqs ++ [ChatRequest.upload f.name sid]
    match f.outcome with
    | .netError => { acc with reqs := reqs, aborted := true }
    | .ok pages rem =>
      { acc with
        reqs := reqs
        results := acc.results ++ [{ name := f.name, success := true, pages := pages, error := none }]
        remaining := (match rem with | some k => some k | none => acc.remaining) }
    | .httpError detail =>
      { acc with
        reqs := reqs
        results := acc.results ++ [{ name := f.name, success := false, pages := none, error := detail }] }

/-- `handleFileUpload` of the services-file variant: reject the whole
selection if any file exceeds 15MB (one error message, no request);
otherwise upload in order, stopping the batch on a thrown error (generic
error message, `uploadedFiles` untouched); otherwise record successes and
append the detailed success / failure messages. -/
def handleFileUpload (st : StateB) (files : List FileB) : StateB × List ChatRequest :=
  if files.isEmpty then (st, [])
  else
    match files.find? (fun f => MAX_FILE_SIZE_BYTES < f.size) with
    | some f => ({ st with messages := st.messages ++ [oversizeMessage f.name] }, [])
    | none =>
      let acc := files.foldl (stepBatch st.sessionId) { results := [], remaining := none, reqs := [], aborted := false }
      let st1 := { st with uploadsRemaining := acc.remaining.getD st.uploadsRemaining }
      if acc.aborted then
        ({ st1 with messages := st.messages ++ [batchErrorMessage], uploading := false }, acc.reqs)
      else
        let succ := acc.results.filter (fun r => r.success)
        let failed := acc.results.filter (fun r => !r.success)
        let st2 := { st1 with uploadedFiles := st.uploadedFiles ++ succ }
        let st3 :=
          if 0 < succ.length then
            { st2 with messages := st2.messages ++ [uploadSuccessMessageB succ] }
          else st2
        let st4 :=
          if 0 < failed.length then
            { st3 with messages := st3.messages ++ [uploadFailureMessageB failed] }
          else st3
        ({ st4 with uploading := false }, acc.reqs)

/-- The file input is enabled iff not uploading and
`uploadsRemaining !== 0` (`disabled={uploading || uploadsRemaining === 0}`). -/
def canInitiateUpload (st : StateB) : Bool :=
  !st.uploading && !(st.uploadsRemaining = 0 : Bool)

def initialStateB (sid : List Char) : StateB :=
  { messages := [], uploading := false, uploadedFiles := [],
    uploadsRemaining := MAX_UPLOADS_PER_SESSION, sessionId := sid }

end ServicesChat

/-! ## handleCitationDownload (UTF-16 code-unit level)

The pattern `/^[📁📤]\s*/` is compiled without the `u` flag, so its
character class ranges over UTF-16 code units: it contains the three units
`0xD83D` (the shared high surrogate), `0xDCC1` (low surrogate of 📁) and
`0xDCE4` (low surrogate of 📤).  Strings are therefore embedded here as
lists of code units. -/

namespace CitationDownload

/-- JavaScript `\s` on a (BMP) code unit. -/
def isJsSpaceU (u : Nat) : Bool :=
  u = 0x20 ∨ u = 0x09 ∨ u = 0x0A ∨ u = 0x0B ∨ u = 0x0C ∨ u = 0x0D ∨
  u = 0xA0 ∨ u = 0x1680 ∨ (0x2000 ≤ u ∧ u ≤ 0x200A) ∨ u = 0x2028 ∨
  u = 0x2029 ∨ u = 0x202F ∨ u = 0x205F ∨ u = 0x3000 ∨ u = 0xFEFF

/-- `filename.replace(/^[📁📤]\s*/, '')`: without the `u` flag the class
matches one code unit among the surrogate halves of 📁 and 📤. -/
def stripLeadingMarker : List Nat → List Nat
  | [] => []
  | u :: us =>
    if u = 0xD83D ∨ u = 0xDCC1 ∨ u = 0xDCE4 then us.dropWhile isJsSpaceU else u :: us

/-- `.split('→')[0]`: the prefix before the first U+2192. -/
def splitAtArrowHead (l : List Nat) : List Nat :=
  l.takeWhile (fun u => !(u = 0x2192 : Bool))

/-- `.trim()` at code-unit level. -/
def jsTrimU (l : List Nat) : List Nat :=
  ((l.dropWhile isJsSpaceU).reverse.dropWhile isJsSpaceU).reverse

/-- The `link.download` value computed by `handleCitationDownload`. -/
def downloadName (filename : List Nat) : List Nat :=
  jsTrimU (splitAtArrowHead (stripLeadingMarker filename))

structure DownloadSource where
  filename : List Nat
  download_url : Option (List Nat)
deriving DecidableEq

/-- `handleCitationDownload(source)`: no-op when `download_url` is falsy;
otherwise initiate a browser download of the URL under the computed
suggested filename. -/
def handleCitationDownload (s : DownloadSource) : Option (List Nat × List Nat) :=
  match s.download_url with
  | none => none
  | some url => if url = [] then none else some (url, downloadName s.filename)

/-- Follows the claim's words, for comparison with `downloadName`: the
filename with any single leading 📁 (U+1F4C1) or 📤 (U+1F4E4) code point
(a surrogate pair) and following spaces stripped, truncated at the first
`→`, and trimmed. -/
def claimedDownloadName (filename : List Nat) : List Nat :=
  match filename with
  | 0xD83D :: 0xDCC1 :: rest => jsTrimU (splitAtArrowHead (rest.dropWhile isJsSpaceU))
  | 0xD83D :: 0xDCE4 :: rest => jsTrimU (splitAtArrowHead (rest.dropWhile isJsSpaceU))
  | l => jsTrimU (splitAtArrowHead l)

end CitationDownload

/-! ## Concrete fixtures used by witnesses and counterexamples -/

/-- A text in which deleting the inner citation marker splices the
surrounding characters into a new marker. -/
def c2text : List Char := "[1 [2 → Page 3] → Page 4]".toList

def c2residue : List Char := "[1  → Page 4]".toList

def c1text : List Char := "See [1 → Page 4] ok.".toList

def c4mounted : MountedChat :=
  applyEvents (mountChat 1730000000000 "k3j9q2x7p".toList)
    [ChatEvent.upload [{ name := some "report.pdf".toList, result := some (some 3) }]]

/-- A small in-limit file whose ok response omits `uploads_remaining`. -/
def c3file (i : Nat) : ServicesChat.FileB :=
  { name := "doc".toList ++ natToChars i ++ ".pdf".toList, size := 1000,
    outcome := .ok (some 2) none }

/-- The services-variant state after five successful single-file uploads
whose responses never report `uploads_remaining`. -/
def c3run : ServicesChat.StateB :=
  (List.range 5).foldl (fun st i => (ServicesChat.handleFileUpload st [c3file i]).1)
    (ServicesChat.initialStateB "session-1-abc".toList)

def c10filename : List Nat := [0xD83D, 0xDCC1, 0x20, 0x61, 0x2E, 0x70, 0x64, 0x66]

def c10src : CitationDownload.DownloadSource :=
  { filename := c10filename, download_url := some [0x2F, 0x61] }

/-- The component state reached from mount after the given events. -/
def chatStateAfter (now : Nat) (suffix : List Char) (evs : List ChatEvent) : ChatState :=
  (applyEvents (mountChat now suffix) evs).state

def c8state : ChatState :=
  { initChatState 5 ['a'] with input := "   ".toList }

def c7state : ChatState :=
  { initChatState 1 ['a'] with
    uploadedFiles := [{ name := ['f'], success := true, pages := none }] }

def c3bigfile : ServicesChat.FileB :=
  { name := "big.pdf".toList, size := 16 * 1024 * 1024, outcome := .netError }

theorem expectChar_eq_some {c : Char} {l r : List Char} :
    expectChar c l = some r ↔ l = c :: r := by
  cases l with
  | nil => simp [expectChar]
  | cons x xs =>
    simp only [expectChar]
    by_cases h : x = c
    · subst h; simp
    · simp [h]

theorem expectLit_eq_some {pat l r : List Char} :
    expectLit pat l = some r ↔ l = pat ++ r := by
  induction pat generalizing l with
  | nil => simp [expectLit]
  | cons c cs ih =>
    simp only [expectLit, Option.bind_eq_some]
    constructor
    · rintro ⟨m, hm, hr⟩
      rw [expectChar_eq_some] at hm
      rw [hm, ih.mp hr]
      rfl
    · intro h
      exact ⟨cs ++ r, expectChar_eq_some.mpr h, ih.mpr rfl⟩

theorem takeWhile_all (p : Char → Bool) : ∀ l : List Char, (l.takeWhile p).all p = true := by
  intro l
  induction l with
  | nil => rfl
  | cons c cs ih =>
    by_cases h : p c = true
    · simp [List.takeWhile_cons, h, ih]
    · simp only [Bool.not_eq_true] at h
      simp [List.takeWhile_cons, h]

theorem headNot_dropWhile (p : Char → Bool) : ∀ l : List Char, HeadNot p (l.dropWhile p) := by
  intro l
  induction l with
  | nil => trivial
  | cons c cs ih =>
    by_cases h : p c = true
    · simpa [List.dropWhile_cons, h] using ih
    · simp only [Bool.not_eq_true] at h
      simp [List.dropWhile_cons, h, HeadNot]

theorem takeWhile_dropWhile_append {p : Char → Bool} {xs ys : List Char}
    (h1 : xs.all p = true) (h2 : HeadNot p ys) :
    (xs ++ ys).takeWhile p = xs ∧ (xs ++ ys).dropWhile p = ys := by
  induction xs with
  | nil =>
    cases ys with
    | nil => exact ⟨rfl, rfl⟩
    | cons y ys' =>
      simp only [HeadNot] at h2
      simp [List.takeWhile_cons, List.dropWhile_cons, h2]
  | cons x xs' ih =>
    simp only [List.all_cons, Bool.and_eq_true] at h1
    have := ih h1.2
    simp [List.takeWhile_cons, List.dropWhile_cons, h1.1, this.1, this.2]

theorem headNot_append_cons {p : Char → Bool} {s : List Char} {y : Char} {ys : List Char}
    (hs : ∀ c ∈ s, p c = false) (hy : p y = false) : HeadNot p (s ++ y :: ys) := by
  cases s with
  | nil => exact hy
  | cons c cs => exact hs c (List.mem_cons_self c cs)

theorem all_eq_false_of_all {p q : Char → Bool} {s : List Char}
    (hall : s.all q = true) (himp : ∀ c, q c = true → p c = false) :
    ∀ c ∈ s, p c = false := by
  intro c hc
  exact himp c (List.all_eq_true.mp hall c hc)

/-- Soundness of the matcher: a successful match decomposes the input into a
citation marker followed by the rest. -/
theorem citationMatchAt_sound {l full d rest : List Char}
    (h : citationMatchAt l = some (full, d, rest)) :
    l = full ++ rest ∧ IsCitationMarker full d := by
  unfold citationMatchAt at h
  rw [Option.bind_eq_some] at h
  obtain ⟨r0, hr0, h⟩ := h
  rw [expectChar_eq_some] at hr0
  simp only at h
  by_cases hd1 : r0.takeWhile isJsDigit = []
  · rw [if_pos hd1] at h; cases h
  rw [if_neg hd1] at h
  rw [Option.bind_eq_some] at h
  obtain ⟨r3, hr3, h⟩ := h
  rw [expectChar_eq_some] at hr3
  rw [Option.bind_eq_some] at h
  obtain ⟨r5, hr5, h⟩ := h
  rw [expectLit_eq_some] at hr5
  by_cases hd2 : ((r5.dropWhile isJsSpace).takeWhile isJsDigit) = []
  · rw [if_pos hd2] at h; cases h
  rw [if_neg hd2] at h
  rw [Option.map_eq_some'] at h
  obtain ⟨r8, hr8, heq⟩ := h
  rw [expectChar_eq_some] at hr8
  rw [Prod.mk.injEq, Prod.mk.injEq] at heq
  obtain ⟨hfull, hd, hrest⟩ := heq
  subst hd
  have e0 := List.takeWhile_append_dropWhile isJsDigit r0
  have e1 := List.takeWhile_append_dropWhile isJsSpace (r0.dropWhile isJsDigit)
  have e2 := List.takeWhile_append_dropWhile isJsSpace r3
  have e3 := List.takeWhile_append_dropWhile isJsSpace r5
  have e4 := List.takeWhile_append_dropWhile isJsDigit (r5.dropWhile isJsSpace)
  constructor
  · rw [hr0, ← hfull, ← hrest]
    simp only [List.cons_append, List.append_assoc, List.singleton_append, List.nil_append]
    rw [← hr8, e4, e3, ← hr5, e2, ← hr3, e1, e0]
  · exact ⟨(r0.dropWhile isJsDigit).takeWhile isJsSpace, r3.takeWhile isJsSpace,
      r5.takeWhile isJsSpace, (r5.dropWhile isJsSpace).takeWhile isJsDigit,
      hd1, hd2, takeWhile_all _ _, takeWhile_all _ _, takeWhile_all _ _,
      takeWhile_all _ _, takeWhile_all _ _, hfull.symm⟩

theorem expectChar_cons_self (c : Char) (xs : List Char) : expectChar c (c :: xs) = some xs := by
  simp [expectChar]

theorem expectLit_append (pat r : List Char) : expectLit pat (pat ++ r) = some r :=
  expectLit_eq_some.mpr rfl

theorem headNot_cons {p : Char → Bool} {y : Char} {ys : List Char} (h : p y = false) :
    HeadNot p (y :: ys) := h

theorem marker_ne_nil {full d : List Char} (h : IsCitationMarker full d) : full ≠ [] := by
  obtain ⟨s1, s2, s3, d2, _, _, _, _, _, _, _, hfull⟩ := h
  rw [hfull]
  exact List.cons_ne_nil _ _

/-- Completeness of the matcher: a citation marker matches at the head of
any continuation, consuming exactly itself.  (Each boundary inside the
pattern is between disjoint character classes, so the greedy match cannot
end elsewhere.) -/
theorem citationMatchAt_complete {full d : List Char} (h : IsCitationMarker full d)
    (rest : List Char) : citationMatchAt (full ++ rest) = some (full, d, rest) := by
  obtain ⟨s1, s2, s3, d2, hd, hd2, hdall, hd2all, hs1, hs2, hs3, hfull⟩ := h
  subst hfull
  simp only [List.cons_append, List.append_assoc, List.singleton_append, List.nil_append]
  have hspaces1 : ∀ c ∈ s1, isJsDigit c = false :=
    all_eq_false_of_all hs1 fun c hc => isJsSpace_not_digit hc
  have hdigits2 : ∀ c ∈ d2, isJsSpace c = false :=
    all_eq_false_of_all hd2all fun c hc => isJsDigit_not_space hc
  have tw_d := @takeWhile_dropWhile_append isJsDigit d
    (s1 ++ '→' :: (s2 ++ (pageChars ++ (s3 ++ (d2 ++ ']' :: rest)))))
    hdall (headNot_append_cons hspaces1 (by decide))
  have tw_s1 := @takeWhile_dropWhile_append isJsSpace s1
    ('→' :: (s2 ++ (pageChars ++ (s3 ++ (d2 ++ ']' :: rest)))))
    hs1 (headNot_cons (by decide))
  have tw_s2 := @takeWhile_dropWhile_append isJsSpace s2
    (pageChars ++ (s3 ++ (d2 ++ ']' :: rest)))
    hs2 (@headNot_cons isJsSpace 'P'
      ('a' :: 'g' :: 'e' :: (s3 ++ (d2 ++ ']' :: rest))) (by decide))
  have tw_s3 := @takeWhile_dropWhile_append isJsSpace s3
    (d2 ++ ']' :: rest)
    hs3 (headNot_append_cons hdigits2 (by decide))
  have tw_d2 := @takeWhile_dropWhile_append isJsDigit d2
    (']' :: rest) hd2all (headNot_cons (by decide))
  simp only [citationMatchAt, expectChar_cons_self, Option.some_bind, tw_d.1, tw_d.2,
    if_neg hd, tw_s1.1, tw_s1.2, expectLit_append, tw_s2.1, tw_s2.2, tw_s3.1, tw_s3.2,
    tw_d2.1, tw_d2.2, if_neg hd2, Option.map_some']
  simp [List.append_assoc]

/-! ## The scanner -/

theorem partsText_nil : partsText [] = [] := rfl

theorem partsText_cons (p : Part) (ps : List Part) :
    partsText (p :: ps) = partText p ++ partsText ps := by
  simp [partsText]

theorem partsPlainText_nil : partsPlainText [] = [] := rfl

theorem partsPlainText_cons (p : Part) (ps : List Part) :
    partsPlainText (p :: ps) = partPlain p ++ partsPlainText ps := by
  simp [partsPlainText]

theorem scanParts_nil (mi fuel : Nat) : scanParts mi fuel [] = [] := by
  cases fuel <;> rfl

theorem scanParts_succ_some {c : Char} {cs full d rest : List Char} (mi fuel : Nat)
    (h : citationMatchAt (c :: cs) = some (full, d, rest)) :
    scanParts mi (fuel + 1) (c :: cs) =
      Part.cite full d mi :: scanParts mi fuel rest := by
  simp [scanParts, h]

theorem scanParts_succ_none {c : Char} {cs : List Char} (mi fuel : Nat)
    (h : citationMatchAt (c :: cs) = none) :
    scanParts mi (fuel + 1) (c :: cs) =
      match scanParts mi fuel cs with
      | Part.str s :: ps => Part.str (c :: s) :: ps
      | ps => Part.str [c] :: ps := by
  simp [scanParts, h]

/-- The rendered parts concatenate back to the scanned text (for every
fuel value). -/
theorem partsText_scanParts (mi : Nat) : ∀ fuel l, partsText (scanParts mi fuel l) = l := by
  intro fuel
  induction fuel with
  | zero =>
    intro l
    cases l with
    | nil => rfl
    | cons c cs => simp [scanParts, partsText, partText]
  | succ fuel ih =>
    intro l
    cases l with
    | nil => rfl
    | cons c cs =>
      cases hm : citationMatchAt (c :: cs) with
      | some v =>
        obtain ⟨full, d, rest⟩ := v
        rw [scanParts_succ_some mi fuel hm, partsText_cons, ih rest]
        have := (citationMatchAt_sound hm).1
        simp only [partText]
        exact this.symm
      | none =>
        rw [scanParts_succ_none mi fuel hm]
        have ihcs := ih cs
        cases hscan : scanParts mi fuel cs with
        | nil =>
          rw [hscan, partsText_nil] at ihcs
          simp only [partsText_cons, partText, partsText_nil, List.append_nil, ← ihcs]
        | cons p ps =>
          cases p with
          | str s =>
            rw [hscan, partsText_cons] at ihcs
            simp only [partsText_cons, partText]
            rw [← ihcs]
            rfl
          | cite f dd m =>
            rw [hscan, partsText_cons] at ihcs
            simp only [partsText_cons, partText]
            rw [← ihcs]
            rfl

/-- `handleCopy`'s deletion and the scanner agree: what `replace` keeps is
exactly the plain (non-citation) content of the scan. -/
theorem replaceFuel_eq_plainText (mi : Nat) :
    ∀ fuel l, replaceFuel fuel l = partsPlainText (scanParts mi fuel l) := by
  intro fuel
  induction fuel with
  | zero =>
    intro l
    cases l with
    | nil => rfl
    | cons c cs => simp [replaceFuel, scanParts, partsPlainText, partPlain]
  | succ fuel ih =>
    intro l
    cases l with
    | nil => rfl
    | cons c cs =>
      cases hm : citationMatchAt (c :: cs) with
      | some v =>
        obtain ⟨full, d, rest⟩ := v
        rw [scanParts_succ_some mi fuel hm, partsPlainText_cons]
        simp only [replaceFuel, hm, partPlain, List.nil_append]
        exact ih rest
      | none =>
        rw [scanParts_succ_none mi fuel hm]
        simp only [replaceFuel, hm]
        rw [ih cs]
        cases hscan : scanParts mi fuel cs with
        | nil => rfl
        | cons p ps =>
          cases p with
          | str s => simp [partsPlainText_cons, partPlain]
          | cite f dd m => simp [partsPlainText_cons, partPlain]

/-- Citation spans produced by the scanner carry the scanned message index
and a genuine citation marker. -/
theorem scanParts_cite (mi : Nat) : ∀ fuel l {full d mi'},
    Part.cite full d mi' ∈ scanParts mi fuel l → mi' = mi ∧ IsCitationMarker full d := by
  intro fuel
  induction fuel with
  | zero =>
    intro l full d mi' hmem
    cases l with
    | nil => rw [scanParts_nil] at hmem; cases hmem
    | cons c cs =>
      simp only [scanParts, List.mem_singleton] at hmem
      cases hmem
  | succ fuel ih =>
    intro l full d mi' hmem
    cases l with
    | nil => rw [scanParts_nil] at hmem; cases hmem
    | cons c cs =>
      cases hm : citationMatchAt (c :: cs) with
      | some v =>
        obtain ⟨f0, d0, rest⟩ := v
        rw [scanParts_succ_some mi fuel hm, List.mem_cons] at hmem
        cases hmem with
        | inl heq =>
          obtain ⟨hf, hd, hmi⟩ := Part.cite.inj heq
          subst hf hd hmi
          exact ⟨rfl, (citationMatchAt_sound hm).2⟩
        | inr hmem => exact ih rest hmem
      | none =>
        rw [scanParts_succ_none mi fuel hm] at hmem
        cases hscan : scanParts mi fuel cs with
        | nil =>
          rw [hscan] at hmem
          simp only [List.mem_singleton] at hmem
          cases hmem
        | cons p ps =>
          cases p with
          | str s =>
            rw [hscan] at hmem
            simp only [List.mem_cons] at hmem
            cases hmem with
            | inl heq => cases heq
            | inr hmem => exact ih cs (by rw [hscan]; exact List.mem_cons_of_mem _ hmem)
          | cite f dd m =>
            rw [hscan] at hmem
            simp only [List.mem_cons] at hmem
            cases hmem with
            | inl heq => cases heq
            | inr hmem =>
              cases hmem with
              | inl heq =>
                exact ih cs (by rw [hscan]; exact heq ▸ List.mem_cons_self _ _)
              | inr hmem => exact ih cs (by rw [hscan]; exact List.mem_cons_of_mem _ hmem)

/-- Inside a plain fragment no citation match begins: at every position of a
`Part.str` fragment, the matcher fails on the remaining input (the tail of
the fragment followed by the text of the later fragments).  This is exactly
the invariant of the scan: a character joins a plain stretch only after the
matcher failed there. -/
theorem scanParts_str_nomatch (mi : Nat) : ∀ fuel l, l.length ≤ fuel →
    ∀ pre s post, scanParts mi fuel l = pre ++ Part.str s :: post →
    ∀ a b, s = a ++ b → b ≠ [] → citationMatchAt (b ++ partsText post) = none := by
  intro fuel
  induction fuel with
  | zero =>
    intro l hlen pre s post heq a b hs hb
    have : l = [] := List.length_eq_zero.mp (Nat.le_zero.mp hlen)
    subst this
    rw [scanParts_nil] at heq
    obtain ⟨-, h2⟩ := List.append_eq_nil.mp heq.symm
    cases h2
  | succ fuel ih =>
    intro l hlen pre s post heq a b hs hb
    cases l with
    | nil =>
      rw [scanParts_nil] at heq
      obtain ⟨-, h2⟩ := List.append_eq_nil.mp heq.symm
      cases h2
    | cons c cs =>
      have hcs : cs.length ≤ fuel := by
        simp only [List.length_cons] at hlen
        omega
      cases hm : citationMatchAt (c :: cs) with
      | some v =>
        obtain ⟨full, d, rest⟩ := v
        rw [scanParts_succ_some mi fuel hm] at heq
        have hsound := citationMatchAt_sound hm
        have hrest : rest.length ≤ fuel := by
          have hlen2 := congrArg List.length hsound.1
          have hfne : 0 < full.length :=
            List.length_pos.mpr (marker_ne_nil hsound.2)
          simp only [List.length_cons, List.length_append] at hlen2
          omega
        cases pre with
        | nil =>
          simp only [List.nil_append, List.cons.injEq] at heq
          cases heq.1
        | cons p pre' =>
          simp only [List.cons_append, List.cons.injEq] at heq
          exact ih rest hrest pre' s post heq.2 a b hs hb
      | none =>
        rw [scanParts_succ_none mi fuel hm] at heq
        have htext := partsText_scanParts mi fuel cs
        cases hscan : scanParts mi fuel cs with
        | nil =>
          rw [hscan] at heq htext
          simp only at heq
          have hcsnil : cs = [] := by rw [← htext]; rfl
          cases pre with
          | nil =>
            simp only [List.nil_append, List.cons.injEq] at heq
            obtain ⟨hstr, hpost⟩ := heq
            have hseq : s = [c] := (Part.str.inj hstr).symm
            rw [hseq] at hs
            cases a with
            | nil =>
              simp only [List.nil_append] at hs
              subst hs
              rw [← hpost, partsText_nil, List.append_nil]
              rw [hcsnil] at hm
              exact hm
            | cons a0 a' =>
              simp only [List.cons_append, List.cons.injEq] at hs
              exact absurd (List.append_eq_nil.mp hs.2.symm).2 hb
          | cons p pre' =>
            simp only [List.cons_append, List.cons.injEq] at heq
            obtain ⟨-, h2⟩ := List.append_eq_nil.mp heq.2.symm
            cases h2
        | cons p0 ps =>
          cases p0 with
          | str s' =>
            rw [hscan] at heq htext
            simp only at heq
            rw [partsText_cons] at htext
            cases pre with
            | nil =>
              simp only [List.nil_append, List.cons.injEq] at heq
              obtain ⟨hstr, hpost⟩ := heq
              have hseq : s = c :: s' := (Part.str.inj hstr).symm
              rw [hseq] at hs
              cases a with
              | nil =>
                simp only [List.nil_append] at hs
                subst hs
                rw [← hpost]
                have harg : (c :: s') ++ partsText ps = c :: cs := by
                  simp only [List.cons_append, List.cons.injEq, true_and]
                  simpa [partText] using htext
                rw [harg]
                exact hm
              | cons a0 a' =>
                simp only [List.cons_append, List.cons.injEq] at hs
                rw [← hpost]
                exact ih cs hcs [] s' ps (by rw [hscan]; rfl) a' b hs.2 hb
            | cons p pre' =>
              simp only [List.cons_append, List.cons.injEq] at heq
              exact ih cs hcs (Part.str s' :: pre') s post (by rw [hscan, heq.2]; rfl) a b hs hb
          | cite f dd m =>
            rw [hscan] at heq htext
            simp only at heq
            rw [partsText_cons] at htext
            cases pre with
            | nil =>
              simp only [List.nil_append, List.cons.injEq] at heq
              obtain ⟨hstr, hpost⟩ := heq
              have hseq : s = [c] := (Part.str.inj hstr).symm
              rw [hseq] at hs
              cases a with
              | nil =>
                simp only [List.nil_append] at hs
                subst hs
                rw [← hpost, partsText_cons]
                have harg : [c] ++ (partText (Part.cite f dd m) ++ partsText ps) = c :: cs := by
                  simp only [List.singleton_append, List.cons.injEq, true_and]
                  exact htext
                rw [harg]
                exact hm
              | cons a0 a' =>
                simp only [List.cons_append, List.cons.injEq] at hs
                exact absurd (List.append_eq_nil.mp hs.2.symm).2 hb
            | cons p pre' =>
              simp only [List.cons_append, List.cons.injEq] at heq
              exact ih cs hcs pre' s post (by rw [hscan]; exact heq.2) a b hs hb

/-! ## Claim C1 -/

/-- C1: `renderTextWithCitations` scans the text left to right for the
citation pattern `[N → Page X]` and returns parts in which every matched
marker becomes a clickable span whose handler targets the source entry
with citation number N of the same message (the `citationsRef` key
`messageIndex-N`), every plain part contains no citation marker, and the
concatenation of the textual content of all parts equals the original
text. -/
theorem renderTextWithCitations_spec (text : List Char) (mi : Nat) :
    partsText (renderTextWithCitations text mi) = text ∧
    (∀ full d mi', Part.cite full d mi' ∈ renderTextWithCitations text mi →
      mi' = mi ∧ IsCitationMarker full d ∧
      ∀ refs : List Char → Option Nat, scrollToCitation refs d mi' = refs (citationKey mi d)) ∧
    (∀ s, Part.str s ∈ renderTextWithCitations text mi →
      ∀ a m b, s = a ++ m ++ b → ∀ d, ¬ IsCitationMarker m d) := by
  cases hscan : scanParts mi text.length text with
  | nil =>
    have htext := partsText_scanParts mi text.length text
    rw [hscan, partsText_nil] at htext
    have hrender : renderTextWithCitations text mi = [Part.str text] := by
      simp [renderTextWithCitations, hscan]
    refine ⟨?_, ?_, ?_⟩
    · rw [hrender]
      simp [partsText, partText]
    · intro full d mi' hmem
      rw [hrender] at hmem
      simp at hmem
    · intro s hmem a m b hsplit d hmark
      rw [hrender] at hmem
      simp only [List.mem_singleton] at hmem
      have hs : s = text := Part.str.inj hmem
      rw [hs, ← htext] at hsplit
      obtain ⟨h1, -⟩ := List.append_eq_nil.mp hsplit.symm
      obtain ⟨-, hm⟩ := List.append_eq_nil.mp h1
      exact marker_ne_nil hmark hm
  | cons p ps =>
    have hrender : renderTextWithCitations text mi = p :: ps := by
      simp [renderTextWithCitations, hscan]
    refine ⟨?_, ?_, ?_⟩
    · rw [hrender, ← hscan]
      exact partsText_scanParts mi text.length text
    · intro full d mi' hmem
      rw [hrender, ← hscan] at hmem
      obtain ⟨hmi, hmark⟩ := scanParts_cite mi text.length text hmem
      refine ⟨hmi, hmark, fun refs => ?_⟩
      rw [hmi]
      rfl
    · intro s hmem a m b hsplit d hmark
      rw [hrender, ← hscan] at hmem
      obtain ⟨pre, post, hdecomp⟩ := List.append_of_mem hmem
      have hb : m ++ b ≠ [] := fun h => marker_ne_nil hmark (List.append_eq_nil.mp h).1
      have hsplit' : s = a ++ (m ++ b) := by rw [hsplit, List.append_assoc]
      have hnm := scanParts_str_nomatch mi text.length text (le_refl _) pre s post hdecomp
        a (m ++ b) hsplit' hb
      rw [List.append_assoc] at hnm
      have hc := citationMatchAt_complete hmark (b ++ partsText post)
      rw [hnm] at hc
      cases hc

/-- C1 witness: on a concrete text the decomposition round-trips and the
marker `[1 → Page 4]` is recognised with citation number `1`. -/
theorem renderTextWithCitations_spec_witness :
    partsText (renderTextWithCitations c1text 7) = c1text ∧
    IsCitationMarker "[1 → Page 4]".toList ['1'] := by
  refine ⟨(renderTextWithCitations_spec c1text 7).1, ?_⟩
  have h := (renderTextWithCitations_spec c1text 7).2.1 "[1 → Page 4]".toList ['1'] 7
    (by decide)
  exact h.2.1

/-! ## Claim C2 -/

/-- C2 (amended): the text `handleCopy` writes to the clipboard — the
message text with every citation-pattern match deleted — equals the
concatenation of exactly the plain segments `renderTextWithCitations`
produces for the same text.  (The further claim that this cleaned text can
itself contain no citation marker is refuted by
`handleCopy_counterexample`.) -/
theorem handleCopy_strips_exactly_plain (st : ChatState) (text : List Char) (i : Nat)
    (ok : Bool) (mi : Nat) :
    (handleCopy st text i ok).2 = partsPlainText (renderTextWithCitations text mi) := by
  cases hscan : scanParts mi text.length text with
  | nil =>
    have htext := partsText_scanParts mi text.length text
    rw [hscan, partsText_nil] at htext
    rw [← htext]
    rfl
  | cons p ps =>
    have hrender : renderTextWithCitations text mi = p :: ps := by
      simp [renderTextWithCitations, hscan]
    rw [hrender, ← hscan]
    exact replaceFuel_eq_plainText mi text.length text

/-- C2 counterexample: on `c2text` the deletion of the inner marker
`[2 → Page 3]` splices the surrounding characters into the residue
`[1  → Page 4]`, which is itself a citation marker — the copied text is not
marker-free. -/
theorem handleCopy_counterexample :
    (handleCopy (initChatState 0 []) c2text 0 true).2 = c2residue ∧
    IsCitationMarker c2residue ['1'] := by
  constructor
  · decide
  · exact ⟨[' ', ' '], [' '], [' '], ['4'], by decide, by decide, by decide, by decide,
      by decide, by decide, by decide, by decide⟩

/-! ## Claim C8 -/

/-- C8: `handleSubmit` is a complete no-op — same state, no request — when
the input is empty or whitespace-only, when a request is already loading,
or when the trimmed input exceeds 5000 characters. -/
theorem handleSubmit_noop (st : ChatState) (outcome : Except Unit ChatResponse)
    (h : jsTrim st.input = [] ∨ st.loading = true ∨ 5000 < (jsTrim st.input).length) :
    handleSubmit st outcome = (st, none) := by
  simp only [handleSubmit]
  rcases h with h | h | h
  · rw [if_pos (Or.inl h)]
  · rw [if_pos (Or.inr h)]
  · by_cases h0 : jsTrim st.input = [] ∨ st.loading = true
    · rw [if_pos h0]
    · rw [if_neg h0, if_pos (Or.inr h)]

/-- C8 witness: a whitespace-only input is a no-op. -/
theorem handleSubmit_noop_witness :
    handleSubmit c8state (Except.error ()) = (c8state, none) :=
  handleSubmit_noop c8state (Except.error ()) (Or.inl (by decide))

/-! ## Claim C7 -/

/-- C7: `handleClearUploads` does nothing without uploaded files or without
confirmation; on an ok response it empties `uploadedFiles` and appends one
success system message; on a non-ok response or a network error it leaves
`uploadedFiles` unchanged and appends one error system message. -/
theorem handleClearUploads_spec (st : ChatState) (confirmed : Bool)
    (result : Except Unit Bool) :
    (st.uploadedFiles = [] → handleClearUploads st confirmed result = (st, none)) ∧
    (confirmed = false → handleClearUploads st confirmed result = (st, none)) ∧
    (st.uploadedFiles ≠ [] → confirmed = true → result = Except.ok true →
      handleClearUploads st confirmed result =
        ({ st with uploadedFiles := [], messages := st.messages ++ [clearSuccessMessage] },
          some (ChatRequest.cleanup st.sessionId))) ∧
    (st.uploadedFiles ≠ [] → confirmed = true →
      (result = Except.ok false ∨ result = Except.error ()) →
      handleClearUploads st confirmed result =
        ({ st with messages := st.messages ++ [clearFailureMessage] },
          some (ChatRequest.cleanup st.sessionId))) := by
  refine ⟨?_, ?_, ?_, ?_⟩
  · intro h
    simp [handleClearUploads, h]
  · intro h
    by_cases he : st.uploadedFiles.isEmpty
    · simp [handleClearUploads, he]
    · simp [handleClearUploads, he, h]
  · intro h1 h2 h3
    have he : st.uploadedFiles.isEmpty = false := by
      cases hu : st.uploadedFiles with
      | nil => exact absurd hu h1
      | cons x xs => rfl
    subst h2 h3
    simp [handleClearUploads, he]
  · intro h1 h2 h3
    have he : st.uploadedFiles.isEmpty = false := by
      cases hu : st.uploadedFiles with
      | nil => exact absurd hu h1
      | cons x xs => rfl
    subst h2
    rcases h3 with h3 | h3 <;> subst h3 <;> simp [handleClearUploads, he]

/-- C7 witness: with one uploaded file, confirmation and an ok response,
the list is emptied and a success message appended. -/
theorem handleClearUploads_spec_witness :
    handleClearUploads c7state true (Except.ok true) =
      ({ c7state with
          uploadedFiles := []
          messages := c7state.messages ++ [clearSuccessMessage] },
        some (ChatRequest.cleanup c7state.sessionId)) :=
  (handleClearUploads_spec c7state true (Except.ok true)).2.2.1 (by decide) rfl rfl

/-! ## Claim C9 -/

theorem append2_exists {α : Type} (xs A B : List α) : ∃ t, (xs ++ A) ++ B = xs ++ t :=
  ⟨A ++ B, by rw [List.append_assoc]⟩

/-- C9: the message log is append-only — every operation of the component
either leaves `messages` unchanged or appends entries at its end. -/
theorem messages_append_only (st : ChatState) (ev : ChatEvent) :
    ∃ tail, ((step st ev).1).messages = st.messages ++ tail := by
  cases ev with
  | setInput s => exact ⟨[], (List.append_nil _).symm⟩
  | copy text i ok =>
    simp only [step, handleCopy]
    split
    · exact ⟨[], (List.append_nil _).symm⟩
    · exact ⟨[], (List.append_nil _).symm⟩
  | submit outcome =>
    simp only [step, handleSubmit]
    repeat' split
    all_goals
      first
        | exact ⟨[], (List.append_nil _).symm⟩
        | exact ⟨_, rfl⟩
        | exact append2_exists _ _ _
  | upload files =>
    simp only [step, handleFileUpload]
    repeat' split
    all_goals
      first
        | exact ⟨[], (List.append_nil _).symm⟩
        | exact ⟨_, rfl⟩
        | exact append2_exists _ _ _
  | clearUploads confirmed result =>
    simp only [step, handleClearUploads]
    repeat' split
    all_goals
      first
        | exact ⟨[], (List.append_nil _).symm⟩
        | exact ⟨_, rfl⟩

/-! ## Claim C6 -/

theorem step_sessionId (st : ChatState) (ev : ChatEvent) (h : st.sessionId ≠ []) :
    ((step st ev).1).sessionId = st.sessionId := by
  cases ev with
  | setInput s => rfl
  | copy text i ok =>
    simp only [step, handleCopy]
    split <;> rfl
  | upload files =>
    simp only [step, handleFileUpload]
    repeat' split
    all_goals rfl
  | clearUploads confirmed result =>
    simp only [step, handleClearUploads]
    repeat' split
    all_goals rfl
  | submit outcome =>
    simp only [step, handleSubmit]
    repeat' split
    all_goals first
      | rfl
      | simp_all [adoptsBackendSession, List.isEmpty_iff]

theorem step_requests_sessionId (st : ChatState) (ev : ChatEvent) :
    ∀ r ∈ (step st ev).2, requestSessionId r = st.sessionId := by
  cases ev with
  | setInput s => intro r hr; cases hr
  | copy text i ok => intro r hr; cases hr
  | submit outcome =>
    intro r hr
    simp only [step] at hr
    have hreq : ∀ q, (handleSubmit st outcome).2 = some q →
        q = ChatRequest.chat (jsTrim st.input) st.sessionId := by
      intro q hq
      simp only [handleSubmit] at hq
      repeat' split at hq
      all_goals cases hq <;> rfl
    cases hopt : (handleSubmit st outcome).2 with
    | none => rw [hopt] at hr; cases hr
    | some q =>
      rw [hopt] at hr
      simp only [Option.toList_some, List.mem_singleton] at hr
      rw [hr, hreq q hopt]
      rfl
  | upload files =>
    intro r hr
    simp only [step, handleFileUpload] at hr
    split at hr
    · cases hr
    · obtain ⟨pair, hpair, hsnd⟩ := List.mem_map.mp hr
      obtain ⟨f, hf, hstep⟩ := List.mem_filterMap.mp hpair
      subst hsnd
      cases hname : f.name with
      | none => simp [uploadStep, hname] at hstep
      | some nm =>
        cases hres : f.result with
        | some pages =>
          simp only [uploadStep, hname, hres, Option.some.injEq] at hstep
          rw [← hstep]
          rfl
        | none =>
          simp only [uploadStep, hname, hres, Option.some.injEq] at hstep
          rw [← hstep]
          rfl
  | clearUploads confirmed result =>
    intro r hr
    simp only [step] at hr
    have hreq : ∀ q, (handleClearUploads st confirmed result).2 = some q →
        q = ChatRequest.cleanup st.sessionId := by
      intro q hq
      simp only [handleClearUploads] at hq
      repeat' split at hq
      all_goals cases hq <;> rfl
    cases hopt : (handleClearUploads st confirmed result).2 with
    | none => rw [hopt] at hr; cases hr
    | some q =>
      rw [hopt] at hr
      simp only [Option.toList_some, List.mem_singleton] at hr
      rw [hr, hreq q hopt]
      rfl

theorem applyEvents_cons (m : MountedChat) (e : ChatEvent) (es : List ChatEvent) :
    applyEvents m (e :: es) = applyEvents (applyEvent m e) es := rfl

theorem applyEvents_state_sessionId (evs : List ChatEvent) : ∀ m : MountedChat,
    m.state.sessionId ≠ [] → (applyEvents m evs).state.sessionId = m.state.sessionId := by
  induction evs with
  | nil => intro m h; rfl
  | cons e es ih =>
    intro m h
    rw [applyEvents_cons]
    have hstep : (applyEvent m e).state.sessionId = m.state.sessionId :=
      step_sessionId m.state e h
    rw [ih (applyEvent m e) (by rw [hstep]; exact h), hstep]

theorem sessionIdString_ne_nil (now : Nat) (suffix : List Char) :
    sessionIdString now suffix ≠ [] := by
  have h8 : "session-".toList = ['s', 'e', 's', 's', 'i', 'o', 'n', '-'] := rfl
  rw [sessionIdString, h8]
  simp

theorem applyEvents_captured (evs : List ChatEvent) : ∀ m : MountedChat,
    (applyEvents m evs).capturedUploadedFiles = m.capturedUploadedFiles ∧
    (applyEvents m evs).capturedSessionId = m.capturedSessionId := by
  induction evs with
  | nil => intro m; exact ⟨rfl, rfl⟩
  | cons e es ih =>
    intro m
    rw [applyEvents_cons]
    exact ih (applyEvent m e)

/-- C6: the session id is generated client-side at mount as
`session-<timestamp>-<suffix>` (the base-36 suffix abstracted), is
non-empty, is preserved unchanged by every sequence of operations; the chat,
upload and cleanup requests all carry it; and the `handleSubmit` branch that
would adopt the backend's session id is never enabled. -/
theorem sessionId_stable (now : Nat) (suffix : List Char) (evs : List ChatEvent) :
    (chatStateAfter now suffix evs).sessionId = sessionIdString now suffix ∧
    sessionIdString now suffix ≠ [] ∧
    adoptsBackendSession (chatStateAfter now suffix evs) = false ∧
    (∀ ev r, r ∈ (step (chatStateAfter now suffix evs) ev).2 →
      requestSessionId r = sessionIdString now suffix) ∧
    (∀ files req, cleanupSession files (chatStateAfter now suffix evs).sessionId = some req →
      requestSessionId req = sessionIdString now suffix) := by
  have hinit : (mountChat now suffix).state.sessionId = sessionIdString now suffix := rfl
  have hne := sessionIdString_ne_nil now suffix
  have hsid : (chatStateAfter now suffix evs).sessionId = sessionIdString now suffix := by
    have h := applyEvents_state_sessionId evs (mountChat now suffix) (by rw [hinit]; exact hne)
    rw [chatStateAfter, h, hinit]
  refine ⟨hsid, hne, ?_, ?_, ?_⟩
  · simp only [adoptsBackendSession, hsid]
    cases hq : sessionIdString now suffix with
    | nil => exact absurd hq hne
    | cons c cs => rfl
  · intro ev r hr
    rw [← hsid]
    exact step_requests_sessionId (chatStateAfter now suffix evs) ev r hr
  · intro files req hreq
    simp only [cleanupSession] at hreq
    split at hreq
    · injection hreq with hreq
      rw [← hreq]
      simp only [requestSessionId]
      exact hsid
    · cases hreq

/-- C6 witness: at mount with timestamp 1 and suffix `z`, the state holds
the generated id and a cleanup request built from it carries it. -/
theorem sessionId_stable_witness :
    (chatStateAfter 1 ['z'] []).sessionId = sessionIdString 1 ['z'] ∧
    requestSessionId (ChatRequest.cleanup (sessionIdString 1 ['z'])) = sessionIdString 1 ['z'] := by
  refine ⟨(sessionId_stable 1 ['z'] []).1, ?_⟩
  exact (sessionId_stable 1 ['z'] []).2.2.2.2
    [{ name := ['f'], success := true, pages := none }]
    (ChatRequest.cleanup (sessionIdString 1 ['z'])) (by decide)

/-! ## Claim C4 -/

/-- C4 (code bug): the unload/unmount cleanup never sends a request.  The
effect runs with an empty dependency array, so its closures capture the
mount-time `uploadedFiles` (empty) and never see later uploads: the guard
`uploadedFiles.length > 0` always fails.  In particular in `c4mounted`,
where a file has been uploaded successfully, both the unmount cleanup and
the `beforeunload` handler still send nothing — contradicting the claim
(and the code's own doc comment). -/
theorem cleanup_never_fires :
    (∀ now suffix evs,
      unmountCleanup (applyEvents (mountChat now suffix) evs) = none ∧
      beforeUnloadCleanup (applyEvents (mountChat now suffix) evs) = none) ∧
    c4mounted.state.uploadedFiles ≠ [] ∧
    unmountCleanup c4mounted = none ∧
    beforeUnloadCleanup c4mounted = none := by
  refine ⟨?_, by decide, by decide, by decide⟩
  intro now suffix evs
  have hcap := applyEvents_captured evs (mountChat now suffix)
  have hnil : (applyEvents (mountChat now suffix) evs).capturedUploadedFiles = [] := by
    rw [hcap.1]
    rfl
  constructor
  · simp [unmountCleanup, hnil, cleanupSession]
  · simp [beforeUnloadCleanup, hnil]

/-! ## Claim C5 -/

/-- C5: the API client is a pass-through wrapper over exactly the two
documented requests: `sendMessage` issues one POST `/chat` with body
`{message, session_id}` against the configured base URL with the
`X-API-Key` header and returns the response body on success; `checkHealth`
issues one GET `/health`; on failure each rethrows the original error
unchanged. -/
theorem api_passthrough {ε α : Type}
    (transport : ApiService.ApiRequest → Except ε (ApiService.AxiosResp α))
    (envUrl envKey : Option (List Char)) (msg : List Char) (sid : Option (List Char)) :
    (∀ r, transport (ApiService.chatRequest envUrl envKey msg sid) = Except.ok r →
      ApiService.sendMessage transport envUrl envKey msg sid = Except.ok r.data) ∧
    (∀ e, transport (ApiService.chatRequest envUrl envKey msg sid) = Except.error e →
      ApiService.sendMessage transport envUrl envKey msg sid = Except.error e) ∧
    (∀ r, transport (ApiService.healthRequest envUrl envKey) = Except.ok r →
      ApiService.checkHealth transport envUrl envKey = Except.ok r.data) ∧
    (∀ e, transport (ApiService.healthRequest envUrl envKey) = Except.error e →
      ApiService.checkHealth transport envUrl envKey = Except.error e) ∧
    ApiService.chatRequest envUrl envKey msg sid =
      { method := ApiService.HttpMethod.post
        config := { baseURL := ApiService.apiBaseURL envUrl
                    headers := [("Content-Type".toList, "application/json".toList),
                                ("X-API-Key".toList, ApiService.apiKey envKey)] }
        path := "/chat".toList
        body := some { message := msg, session_id := sid } } ∧
    ApiService.healthRequest envUrl envKey =
      { method := ApiService.HttpMethod.get
        config := { baseURL := ApiService.apiBaseURL envUrl
                    headers := [("Content-Type".toList, "application/json".toList),
                                ("X-API-Key".toList, ApiService.apiKey envKey)] }
        path := "/health".toList
        body := none } := by
  refine ⟨?_, ?_, ?_, ?_, rfl, rfl⟩
  · intro r h
    simp [ApiService.sendMessage, h]
  · intro e h
    simp [ApiService.sendMessage, h]
  · intro r h
    simp [ApiService.checkHealth, h]
  · intro e h
    simp [ApiService.checkHealth, h]

/-- C5 witness: with a transport answering `ok ⟨5⟩`, `sendMessage` returns
`ok 5`; with a failing transport it rethrows the same error value. -/
theorem api_passthrough_witness :
    ApiService.sendMessage
        (fun _ => (Except.ok ⟨5⟩ : Except Unit (ApiService.AxiosResp Nat)))
        none none ['h'] none = Except.ok 5 ∧
    ApiService.checkHealth (fun _ => (Except.error 3 : Except Nat (ApiService.AxiosResp Nat)))
        none none = Except.error 3 :=
  ⟨(api_passthrough (fun _ => (Except.ok ⟨5⟩ : Except Unit (ApiService.AxiosResp Nat)))
      none none ['h'] none).1 ⟨5⟩ rfl,
   (api_passthrough (fun _ => (Except.error 3 : Except Nat (ApiService.AxiosResp Nat)))
      none none ['h'] none).2.2.2.1 3 rfl⟩

/-! ## Claim C3 -/

/-- C3 (amended): in the services-file variant of `handleFileUpload`, a
selection containing a file over 15MB is rejected whole — one error system
message naming the first oversized file, no upload request sent; and the
5-upload cap is reflected client-side only through the backend-reported
`uploads_remaining` counter, which when 0 disables initiating an upload. -/
theorem upload_limits (st : ServicesChat.StateB) (files : List ServicesChat.FileB) :
    (∀ f, files.find? (fun f => ServicesChat.MAX_FILE_SIZE_BYTES < f.size) = some f →
      ServicesChat.handleFileUpload st files =
        ({ st with messages := st.messages ++ [ServicesChat.oversizeMessage f.name] }, [])) ∧
    (st.uploadsRemaining = 0 → ServicesChat.canInitiateUpload st = false) := by
  constructor
  · intro f hfind
    cases files with
    | nil => simp at hfind
    | cons g gs =>
      simp only [ServicesChat.handleFileUpload, List.isEmpty_cons, hfind]
      rfl
  · intro h
    simp [ServicesChat.canInitiateUpload, h]

/-- C3 witness: a 16MB file is rejected with the oversize message and no
request, and a state with `uploadsRemaining = 0` cannot initiate an
upload. -/
theorem upload_limits_witness :
    ServicesChat.handleFileUpload (ServicesChat.initialStateB ['s']) [c3bigfile] =
      ({ ServicesChat.initialStateB ['s'] with
          messages := (ServicesChat.initialStateB ['s']).messages ++
            [ServicesChat.oversizeMessage c3bigfile.name] }, []) ∧
    ServicesChat.canInitiateUpload
      { ServicesChat.initialStateB ['s'] with uploadsRemaining := 0 } = false :=
  ⟨(upload_limits (ServicesChat.initialStateB ['s']) [c3bigfile]).1 c3bigfile (by decide),
   (upload_limits { ServicesChat.initialStateB ['s'] with uploadsRemaining := 0 } []).2 rfl⟩

/-- C3 counterexample: after five successful uploads whose responses omit
`uploads_remaining`, the client still allows initiating an upload and a
sixth upload request is sent — the 5-upload cap is not enforced by this
code. -/
theorem upload_cap_counterexample :
    c3run.uploadedFiles.length = 5 ∧
    ServicesChat.canInitiateUpload c3run = true ∧
    (ServicesChat.handleFileUpload c3run [c3file 5]).2 ≠ [] := by
  refine ⟨by decide, by decide, by decide⟩

/-! ## Claim C10 -/

/-- C10 (amended): `handleCitationDownload` is a no-op for a source whose
`download_url` is absent or empty; otherwise it downloads from that URL
under the name obtained by removing one leading UTF-16 code unit when it is
a surrogate half of 📁 or 📤 (the class `[📁📤]` is compiled without the
`u` flag) plus following spaces, truncating at the first `→` unit, and
trimming whitespace. -/
theorem handleCitationDownload_spec (s : CitationDownload.DownloadSource) :
    (s.download_url = none → CitationDownload.handleCitationDownload s = none) ∧
    (s.download_url = some [] → CitationDownload.handleCitationDownload s = none) ∧
    (∀ url, s.download_url = some url → url ≠ [] →
      CitationDownload.handleCitationDownload s =
        some (url, CitationDownload.jsTrimU (CitationDownload.splitAtArrowHead
          (CitationDownload.stripLeadingMarker s.filename)))) := by
  refine ⟨?_, ?_, ?_⟩
  · intro h
    simp [CitationDownload.handleCitationDownload, h]
  · intro h
    simp [CitationDownload.handleCitationDownload, h]
  · intro url hurl hne
    simp [CitationDownload.handleCitationDownload, hurl, hne, CitationDownload.downloadName]

/-- C10 witness: a concrete source with a URL downloads under the
unit-level-computed name. -/
theorem handleCitationDownload_spec_witness :
    CitationDownload.handleCitationDownload c10src =
      some ([0x2F, 0x61], [0xDCC1, 0x20, 0x61, 0x2E, 0x70, 0x64, 0x66]) := by
  have h := (handleCitationDownload_spec c10src).2.2 [0x2F, 0x61] rfl (by decide)
  rw [h]
  decide

/-- C10 counterexample: on the filename `📁 a.pdf` the code strips only the
high surrogate `0xD83D`, leaving the low surrogate `0xDCC1` and the space
in the suggested name, while the claim says the whole 📁 marker and spaces
are stripped (giving `a.pdf`). -/
theorem downloadName_counterexample :
    CitationDownload.downloadName c10filename ≠
      CitationDownload.claimedDownloadName c10filename ∧
    CitationDownload.downloadName c10filename = [0xDCC1, 0x20, 0x61, 0x2E, 0x70, 0x64, 0x66] ∧
    CitationDownload.claimedDownloadName c10filename = [0x61, 0x2E, 0x70, 0x64, 0x66] := by
  refine ⟨by decide, by decide, by decide⟩

/-- C2 witness: the amended equality at a concrete text. -/
theorem handleCopy_strips_exactly_plain_witness :
    (handleCopy (initChatState 0 []) c1text 0 true).2 =
      partsPlainText (renderTextWithCitations c1text 3) :=
  handleCopy_strips_exactly_plain (initChatState 0 []) c1text 0 true 3

/-- C4 witness: the general no-request fact at a concrete mount. -/
theorem cleanup_never_fires_witness :
    unmountCleanup (applyEvents (mountChat 1 ['q']) []) = none :=
  (cleanup_never_fires.1 1 ['q'] []).1

/-- C9 witness: one concrete step only appends to the log. -/
theorem messages_append_only_witness :
    ∃ tail, ((step (initChatState 1 ['a']) (ChatEvent.setInput ['x'])).1).messages =
      (initChatState 1 ['a']).messages ++ tail :=
  messages_append_only (initChatState 1 ['a']) (ChatEvent.setInput ['x'])

end Yotta
